import Mathlib

/-!
Shallow embedding of the WENO reconstruction kernels of `src/cweno.c`.

Arrays are modelled as total functions from integer indices to rationals
(the C kernels operate on dense `double` buffers; we use exact rational
arithmetic for the ideal real-number semantics of the formulas).  The C
loops become left folds over explicit index lists, and in-place writes
become pointwise functional updates, so that the order and extent of the
writes made by each kernel is mirrored exactly.
-/

namespace CWeno

/-- A dense 2-d buffer indexed `(cell i, shift r)`. -/
abbrev Arr2 : Type := ℤ → ℤ → ℚ

/-- A dense 3-d buffer indexed `(cell i, shift r, point l)`. -/
abbrev Arr3 : Type := ℤ → ℤ → ℤ → ℚ

/-- A dense 4-d buffer indexed `(cell i, shift r, point l, offset j)`. -/
abbrev Arr4 : Type := ℤ → ℤ → ℤ → ℤ → ℚ

/-- Pointwise update of a 2-d buffer: `*ptr = x` at entry `(i, r)`. -/
def upd2 (g : Arr2) (i r : ℤ) (x : ℚ) : Arr2 :=
  fun a b => if a = i ∧ b = r then x else g a b

/-- Pointwise update of a 3-d buffer at entry `(i, r, l)`. -/
def upd3 (g : Arr3) (i r l : ℤ) (x : ℚ) : Arr3 :=
  fun a b e => if a = i ∧ b = r ∧ e = l then x else g a b e

/-- The index list `[a, a+1, ..., b]` traversed by a C loop
`for (x = a; x <= b; x++)` (empty when `b < a`). -/
def rlist (a b : ℤ) : List ℤ :=
  (List.range (b + 1 - a).toNat).map (fun (t : ℕ) => a + (t : ℤ))

/-- The regularizer written `10e-6` in `alpha` (line 48 of `cweno.c`),
i.e. the value 1e-5. -/
def eps : ℚ := 10 / 1000000

/-- `alpha` (lines 45-49): `*w / ((10e-6 + *s) * (10e-6 + *s))`. -/
def alpha (w s : ℚ) : ℚ := w / ((eps + s) * (eps + s))

/-- Instrumented version of `dot` (lines 24-38): it returns the computed
value together with the exact lists of offsets read from `u` and from `v`,
in the order the C code reads them.  The C function initializes
`d = *u * *v` before looking at `n`, then iterates `i = 1 .. n-1`,
stepping `u` by one and `v` by `s` elements each time. -/
def dotTrace (u v : ℤ → ℚ) (n s : ℤ) : ℚ × List ℤ × List ℤ :=
  (rlist 1 (n - 1)).foldl
    (fun acc i =>
      (acc.1 + u i * v (i * s),
       acc.2.1 ++ [i],
       acc.2.2 ++ [i * s]))
    (u 0 * v 0, [0], [0])

/-- `dot` (lines 24-38): the value computed by the strided dot product. -/
def dot (u v : ℤ → ℚ) (n s : ℤ) : ℚ := (dotTrace u v n s).1

/-- The lower shift clamp of `weights` (line 105): `max(0, i-(N-k)-1)`. -/
def rminDef (N k i : ℤ) : ℤ := max 0 (i - (N - k) - 1)

/-- The upper shift clamp of `weights` (line 106): `min(k-1, i)`. -/
def rmaxDef (k i : ℤ) : ℤ := min (k - 1) i

/-- First inner loop of `weights` (lines 112-120) on one cell `i`: writes
`wr[i,r] = alpha(w[i,r], sigma[i,r])` for `r = rmin .. rmax` and
accumulates `sum_alpha`.  Returns the updated buffer and the sum. -/
def weightsCellPass1 (N k : ℤ) (sigma w : Arr2) (i : ℤ) (wr : Arr2) : Arr2 × ℚ :=
  (rlist (rminDef N k i) (rmaxDef k i)).foldl
    (fun acc r =>
      (upd2 acc.1 i r (alpha (w i r) (sigma i r)),
       acc.2 + alpha (w i r) (sigma i r)))
    (wr, 0)

/-- One iteration of the cell loop of `weights` (lines 102-127): the alpha
pass followed by the normalization loop `*wr /= sum_alpha` (lines 122-126). -/
def weightsCell (N k : ℤ) (sigma w : Arr2) (i : ℤ) (wr : Arr2) : Arr2 :=
  (rlist (rminDef N k i) (rmaxDef k i)).foldl
    (fun g r => upd2 g i r (g i r / (weightsCellPass1 N k sigma w i wr).2))
    (weightsCellPass1 N k sigma w i wr).1

/-- The computational core of `weights` (lines 99-127): processes cells
`i = imin .. imax`, where `N` and `k` are the dimensions of `w`. -/
def weights (N k imin imax : ℤ) (sigma w wr : Arr2) : Arr2 :=
  (rlist imin imax).foldl (fun g i => weightsCell N k sigma w i g) wr

/-- The alpha sum accumulated for cell `i` by the first inner loop of
`weights`. -/
def sumAlpha (N k : ℤ) (sigma w : Arr2) (i : ℤ) : ℚ :=
  ((rlist (rminDef N k i) (rmaxDef k i)).map
    (fun r => alpha (w i r) (sigma i r))).sum

/-- The full `weights` entry point (lines 58-135): each of the three array
arguments carries a flag recording whether NumPy reports it contiguous and
aligned (`NPY_IN_ARRAY`); the C code tests the flags of `sigma`, `w`, `wr`
in that order and raises `TypeError` before touching any data. -/
def weightsCall (sigmaOk wOk wrOk : Bool) (N k imin imax : ℤ)
    (sigma w wr : Arr2) : Except String Arr2 :=
  if sigmaOk = false then Except.error "sigma is not contiguous and/or aligned"
  else if wOk = false then Except.error "w is not contiguous and/or aligned"
  else if wrOk = false then Except.error "wr is not contiguous and/or aligned"
  else Except.ok (weights N k imin imax sigma w wr)

/-- The divisions executed by the `weights` core on a given input: the
divisor `(10e-6 + sigma[i,r])^2` inside `alpha` for every processed entry,
and the divisor `sum_alpha` of the normalization loop for every processed
cell.  The predicate holds when every such divisor is nonzero. -/
def weightsDivSafe (N k imin imax : ℤ) (sigma w : Arr2) : Prop :=
  ∀ i ∈ rlist imin imax,
    (∀ r ∈ rlist (rminDef N k i) (rmaxDef k i),
        (eps + sigma i r) * (eps + sigma i r) ≠ 0)
    ∧ sumAlpha N k sigma w i ≠ 0

instance (N k imin imax : ℤ) (sigma w : Arr2) :
    Decidable (weightsDivSafe N k imin imax sigma w) := by
  unfold weightsDivSafe; infer_instance

/-- The k-order phase of `reconstruct` (lines 197-216): for each cell
`i = imin .. imax` and shift `r = max(0,s) .. min(k-1+s, k-1)`, the C code
points `q` at element `i-r` of the cell-average buffer and writes, for each
point `l`, `qr[i,r,l] = dot(c[i,r,l,:], q, k, q_stride)`.  Here `q` is the
raw buffer (element `m` of the strided view lives at raw offset
`m * qstride`). -/
def reconstructQr (k n s imin imax : ℤ) (q : ℤ → ℚ) (qstride : ℤ)
    (c : Arr4) (qr : Arr3) : Arr3 :=
  (rlist imin imax).foldl
    (fun g0 i =>
      (rlist (max 0 s) (min (k - 1 + s) (k - 1))).foldl
        (fun g1 r =>
          (rlist 0 (n - 1)).foldl
            (fun g2 l =>
              upd3 g2 i r l
                (dot (fun j => c i r l j)
                     (fun t => q ((i - r) * qstride + t)) k qstride))
            g1)
        g0)
    qr

/-- The 2k-1-order phase of `reconstruct` (lines 228-244): for each cell
`i` and point `l`, `qs[i,l] = dot(wr[i,:], qr_raw, k, n)` where the second
argument is the raw `qr` buffer based at entry `(i, 0, l)`; raw offset `o`
from that base lands at entry `(i, (l+o)/n, (l+o)%n)` of the contiguous
`(N,k,n)` buffer. -/
def combine (k n imin imax : ℤ) (wr : Arr2) (qr : Arr3) (qs : Arr2) : Arr2 :=
  (rlist imin imax).foldl
    (fun g0 i =>
      (rlist 0 (n - 1)).foldl
        (fun g1 l =>
          upd2 g1 i l
            (dot (fun j => wr i j)
                 (fun o => qr i ((l + o) / n) ((l + o) % n)) k n))
        g0)
    qs

/-- Both phases of the `reconstruct` core, in order: the k-order phase
writes `qr`, then the combination phase reads the updated `qr`. -/
def reconstructRun (k n s imin imax : ℤ) (q : ℤ → ℚ) (qstride : ℤ)
    (c : Arr4) (wr : Arr2) (qr : Arr3) (qs : Arr2) : Arr3 × Arr2 :=
  let qr1 := reconstructQr k n s imin imax q qstride c qr
  (qr1, combine k n imin imax wr qr1 qs)

/-- The full `reconstruct` entry point (lines 143-252).  The call receives
five arrays (`q`, `c`, `wr`, `qr`, `qs`), each carrying its NumPy
contiguity/alignment flag; the C code tests only the flags of `c`, `wr`
and `qr`, in that order, before running both phases. -/
def reconstructCall (qOk cOk wrOk qrOk qsOk : Bool)
    (k n s imin imax : ℤ) (q : ℤ → ℚ) (qstride : ℤ)
    (c : Arr4) (wr : Arr2) (qr : Arr3) (qs : Arr2) :
    Except String (Arr3 × Arr2) :=
  if cOk = false then Except.error "c is not contiguous and/or aligned"
  else if wrOk = false then Except.error "wr is not contiguous and/or aligned"
  else if qrOk = false then Except.error "qr is not contiguous and/or aligned"
  else Except.ok (reconstructRun k n s imin imax q qstride c wr qr qs)

/-! ### Basic facts about the index lists -/

theorem mem_rlist {a b x : ℤ} : x ∈ rlist a b ↔ a ≤ x ∧ x ≤ b := by
  simp only [rlist, List.mem_map, List.mem_range]
  constructor
  · rintro ⟨t, ht, rfl⟩
    omega
  · intro h
    exact ⟨(x - a).toNat, by omega, by omega⟩

theorem nodup_rlist (a b : ℤ) : (rlist a b).Nodup := by
  refine List.Nodup.map ?_ (List.nodup_range _)
  intro x y h
  have h' : a + (x : ℤ) = a + (y : ℤ) := h
  omega

theorem length_rlist (a b : ℤ) : (rlist a b).length = (b + 1 - a).toNat := by
  simp [rlist]

theorem rlist_cons {a b : ℤ} (h : a ≤ b) : rlist a b = a :: rlist (a + 1) b := by
  unfold rlist
  have h1 : (b + 1 - a).toNat = (b + 1 - (a + 1)).toNat + 1 := by omega
  rw [h1, List.range_succ_eq_map, List.map_cons, List.map_map]
  refine congrArg₂ _ (by simp) ?_
  refine List.map_congr_left ?_
  intro t _
  simp [Function.comp]
  omega

/-! ### Lookup lemmas for the fold-of-update loops -/

theorem foldl_upd2_row (i : ℤ) (val : ℤ → ℚ) :
    ∀ (ks : List ℤ) (g : Arr2) (a b : ℤ),
      (ks.foldl (fun h r => upd2 h i r (val r)) g) a b
        = if a = i ∧ b ∈ ks then val b else g a b := by
  intro ks
  induction ks with
  | nil => intro g a b; simp
  | cons r ks ih =>
    intro g a b
    rw [List.foldl_cons, ih]
    by_cases hA : a = i ∧ b ∈ ks
    · simp [hA, hA.2]
    · by_cases hB : a = i ∧ b = r
      · obtain ⟨rfl, rfl⟩ := hB
        simp [upd2]
      · have hC : ¬(a = i ∧ (b = r ∨ b ∈ ks)) := by tauto
        simp [upd2, hA, hB, hC]

theorem foldl_upd2_div (i : ℤ) (S : ℚ) :
    ∀ (ks : List ℤ), ks.Nodup → ∀ (g : Arr2) (a b : ℤ),
      (ks.foldl (fun h r => upd2 h i r (h i r / S)) g) a b
        = if a = i ∧ b ∈ ks then g a b / S else g a b := by
  intro ks
  induction ks with
  | nil => intro _ g a b; simp
  | cons r ks ih =>
    intro hnd g a b
    have hr : r ∉ ks := (List.nodup_cons.mp hnd).1
    rw [List.foldl_cons, ih (List.nodup_cons.mp hnd).2]
    by_cases hA : a = i ∧ b ∈ ks
    · have hbr : ¬(b = r) := fun e => hr (e ▸ hA.2)
      simp [upd2, hA, hA.2, hbr]
    · by_cases hB : a = i ∧ b = r
      · obtain ⟨rfl, rfl⟩ := hB
        simp [upd2, hr]
      · have hC : ¬(a = i ∧ (b = r ∨ b ∈ ks)) := by tauto
        simp [upd2, hA, hB, hC]

theorem foldl_pass1_eq (i : ℤ) (val : ℤ → ℚ) :
    ∀ (ks : List ℤ) (g : Arr2) (c : ℚ),
      ks.foldl (fun acc r => (upd2 acc.1 i r (val r), acc.2 + val r)) (g, c)
        = (ks.foldl (fun h r => upd2 h i r (val r)) g, c + (ks.map val).sum) := by
  intro ks
  induction ks with
  | nil => intro g c; simp
  | cons r ks ih =>
    intro g c
    rw [List.foldl_cons, ih, List.foldl_cons]
    simp [add_assoc]

/-! ### Unfolding lemmas for `dot` -/

theorem dotTrace_proj (u v : ℤ → ℚ) (s : ℤ) :
    ∀ (l : List ℤ) (d : ℚ) (us vs : List ℤ),
      (l.foldl (fun acc i =>
          (acc.1 + u i * v (i * s),
           acc.2.1 ++ [i],
           acc.2.2 ++ [i * s])) (d, us, vs))
        = (d + (l.map (fun i => u i * v (i * s))).sum,
           us ++ l,
           vs ++ l.map (fun i => i * s)) := by
  intro l
  induction l with
  | nil => intro d us vs; simp
  | cons a l ih =>
    intro d us vs
    rw [List.foldl_cons, ih]
    simp [add_assoc]

theorem dot_eq (u v : ℤ → ℚ) (n s : ℤ) :
    dot u v n s
      = u 0 * v 0 + ((rlist 1 (n - 1)).map (fun i => u i * v (i * s))).sum := by
  unfold dot dotTrace
  rw [dotTrace_proj]

theorem dotTrace_reads (u v : ℤ → ℚ) (n s : ℤ) :
    (dotTrace u v n s).2.1 = 0 :: rlist 1 (n - 1)
      ∧ (dotTrace u v n s).2.2 = 0 :: (rlist 1 (n - 1)).map (fun i => i * s) := by
  unfold dotTrace
  rw [dotTrace_proj]
  simp

theorem dot_eq_sum (u v : ℤ → ℚ) (n s : ℤ) (h : 1 ≤ n) :
    dot u v n s = ((rlist 0 (n - 1)).map (fun t => u t * v (t * s))).sum := by
  rw [dot_eq, rlist_cons (by omega : (0 : ℤ) ≤ n - 1)]
  norm_num

theorem dot_congr (u u' v v' : ℤ → ℚ) (n s : ℤ)
    (h : ∀ t : ℤ, 0 ≤ t → u t * v (t * s) = u' t * v' (t * s)) :
    dot u v n s = dot u' v' n s := by
  rw [dot_eq, dot_eq]
  have h0 : u 0 * v 0 = u' 0 * v' 0 := by
    have h1 := h 0 le_rfl
    simpa using h1
  have h2 : ∀ t ∈ rlist 1 (n - 1), u t * v (t * s) = u' t * v' (t * s) := by
    intro t ht
    exact h t (by have := (mem_rlist.mp ht).1; omega)
  rw [h0, List.map_congr_left h2]

/-! ### Sign facts about `alpha` and the alpha sums -/

theorem eps_pos : 0 < eps := by
  norm_num [eps]

theorem alpha_pos {wv sv : ℚ} (hw : 0 < wv) (hs : 0 ≤ sv) : 0 < alpha wv sv := by
  have h1 : 0 < eps + sv := by linarith [eps_pos]
  exact div_pos hw (mul_pos h1 h1)

theorem alpha_nonneg {wv sv : ℚ} (hw : 0 ≤ wv) (hs : 0 ≤ sv) : 0 ≤ alpha wv sv := by
  have h1 : 0 < eps + sv := by linarith [eps_pos]
  exact div_nonneg hw (mul_pos h1 h1).le

theorem alpha_strict_anti {wv s1 s2 : ℚ} (hw : 0 < wv) (h0 : 0 ≤ s1)
    (h12 : s1 < s2) : alpha wv s2 < alpha wv s1 := by
  unfold alpha
  have h1 : 0 < eps + s1 := by linarith [eps_pos]
  have h2 : (eps + s1) * (eps + s1) < (eps + s2) * (eps + s2) := by nlinarith
  exact div_lt_div_of_pos_left hw (mul_pos h1 h1) h2

theorem list_sum_map_div (l : List ℤ) (f : ℤ → ℚ) (S : ℚ) :
    (l.map (fun r => f r / S)).sum = (l.map f).sum / S := by
  induction l with
  | nil => simp
  | cons a l ih => simp [ih, add_div]

theorem sumAlpha_pos (N k : ℤ) (sigma w : Arr2) (i : ℤ)
    (hσ : ∀ r ∈ rlist (rminDef N k i) (rmaxDef k i), 0 ≤ sigma i r)
    (hw : ∀ r ∈ rlist (rminDef N k i) (rmaxDef k i), 0 ≤ w i r)
    (hpos : ∃ r ∈ rlist (rminDef N k i) (rmaxDef k i), 0 < w i r) :
    0 < sumAlpha N k sigma w i := by
  obtain ⟨r0, hr0, hw0⟩ := hpos
  unfold sumAlpha
  rw [((List.perm_cons_erase hr0).map
        (fun r => alpha (w i r) (sigma i r))).sum_eq]
  rw [List.map_cons, List.sum_cons]
  have h1 : 0 < alpha (w i r0) (sigma i r0) := alpha_pos hw0 (hσ r0 hr0)
  have h2 : 0 ≤ (((rlist (rminDef N k i) (rmaxDef k i)).erase r0).map
      (fun r => alpha (w i r) (sigma i r))).sum := by
    refine List.sum_nonneg ?_
    intro x hx
    obtain ⟨r, hr, rfl⟩ := List.mem_map.mp hx
    have hrm := List.mem_of_mem_erase hr
    exact alpha_nonneg (hw r hrm) (hσ r hrm)
  linarith

/-! ### Pointwise characterization of the kernels -/

theorem weightsCell_get (N k : ℤ) (sigma w : Arr2) (i : ℤ) (g : Arr2) (a b : ℤ) :
    weightsCell N k sigma w i g a b
      = if a = i ∧ b ∈ rlist (rminDef N k i) (rmaxDef k i)
        then alpha (w i b) (sigma i b) / sumAlpha N k sigma w i
        else g a b := by
  unfold weightsCell weightsCellPass1
  rw [foldl_pass1_eq i (fun r => alpha (w i r) (sigma i r))]
  simp only []
  rw [foldl_upd2_div i _ _ (nodup_rlist _ _), foldl_upd2_row]
  by_cases h : a = i ∧ b ∈ rlist (rminDef N k i) (rmaxDef k i)
  · simp [h, sumAlpha]
  · simp [h]

theorem weights_fold_get (N k : ℤ) (sigma w : Arr2) :
    ∀ (is : List ℤ) (g : Arr2) (a b : ℤ),
      (is.foldl (fun h i => weightsCell N k sigma w i h) g) a b
        = if a ∈ is ∧ b ∈ rlist (rminDef N k a) (rmaxDef k a)
          then alpha (w a b) (sigma a b) / sumAlpha N k sigma w a
          else g a b := by
  intro is
  induction is with
  | nil => intro g a b; simp
  | cons i is ih =>
    intro g a b
    rw [List.foldl_cons, ih, weightsCell_get]
    by_cases hA : a ∈ is ∧ b ∈ rlist (rminDef N k a) (rmaxDef k a)
    · simp [hA, hA.1, hA.2]
    · by_cases hB : a = i ∧ b ∈ rlist (rminDef N k i) (rmaxDef k i)
      · obtain ⟨rfl, hb⟩ := hB
        simp [hA, hb]
      · have hC : ¬((a = i ∨ a ∈ is)
            ∧ b ∈ rlist (rminDef N k a) (rmaxDef k a)) := by
          rintro ⟨(rfl | hin), hbb⟩
          · exact hB ⟨rfl, hbb⟩
          · exact hA ⟨hin, hbb⟩
        simp [hA, hB, hC]

theorem weights_get (N k imin imax : ℤ) (sigma w wr0 : Arr2) (a b : ℤ) :
    weights N k imin imax sigma w wr0 a b
      = if (imin ≤ a ∧ a ≤ imax) ∧ rminDef N k a ≤ b ∧ b ≤ rmaxDef k a
        then alpha (w a b) (sigma a b) / sumAlpha N k sigma w a
        else wr0 a b := by
  unfold weights
  rw [weights_fold_get]
  simp [mem_rlist]

theorem foldl_upd3_inner (i r : ℤ) (val : ℤ → ℚ) :
    ∀ (ls : List ℤ) (g : Arr3) (a b e : ℤ),
      (ls.foldl (fun h l => upd3 h i r l (val l)) g) a b e
        = if a = i ∧ b = r ∧ e ∈ ls then val e else g a b e := by
  intro ls
  induction ls with
  | nil => intro g a b e; simp
  | cons l ls ih =>
    intro g a b e
    rw [List.foldl_cons, ih]
    by_cases hA : a = i ∧ b = r ∧ e ∈ ls
    · simp [hA, hA.2.1, hA.2.2]
    · by_cases hB : a = i ∧ b = r ∧ e = l
      · obtain ⟨rfl, rfl, rfl⟩ := hB
        simp [upd3]
      · have hC : ¬(a = i ∧ b = r ∧ (e = l ∨ e ∈ ls)) := by tauto
        simp [upd3, hA, hB, hC]

theorem foldl_upd3_mid (i : ℤ) (ls : List ℤ) (val2 : ℤ → ℤ → ℚ) :
    ∀ (rs : List ℤ) (g : Arr3) (a b e : ℤ),
      (rs.foldl
        (fun h r => ls.foldl (fun h2 l => upd3 h2 i r l (val2 r l)) h) g) a b e
        = if a = i ∧ b ∈ rs ∧ e ∈ ls then val2 b e else g a b e := by
  intro rs
  induction rs with
  | nil => intro g a b e; simp
  | cons r rs ih =>
    intro g a b e
    rw [List.foldl_cons, ih, foldl_upd3_inner]
    by_cases hA : a = i ∧ b ∈ rs ∧ e ∈ ls
    · simp [hA, hA.2.1, hA.2.2]
    · by_cases hB : a = i ∧ b = r ∧ e ∈ ls
      · obtain ⟨rfl, rfl, he⟩ := hB
        simp [hA, he]
      · have hC : ¬(a = i ∧ (b = r ∨ b ∈ rs) ∧ e ∈ ls) := by tauto
        simp [hA, hB, hC]

theorem foldl_upd3_outer (rs ls : List ℤ) (val3 : ℤ → ℤ → ℤ → ℚ) :
    ∀ (is : List ℤ) (g : Arr3) (a b e : ℤ),
      (is.foldl
        (fun h i => rs.foldl
          (fun h1 r => ls.foldl (fun h2 l => upd3 h2 i r l (val3 i r l)) h1)
          h) g) a b e
        = if a ∈ is ∧ b ∈ rs ∧ e ∈ ls then val3 a b e else g a b e := by
  intro is
  induction is with
  | nil => intro g a b e; simp
  | cons i is ih =>
    intro g a b e
    rw [List.foldl_cons, ih, foldl_upd3_mid]
    by_cases hA : a ∈ is ∧ b ∈ rs ∧ e ∈ ls
    · simp [hA, hA.1, hA.2.1, hA.2.2]
    · by_cases hB : a = i ∧ b ∈ rs ∧ e ∈ ls
      · obtain ⟨rfl, hb, he⟩ := hB
        simp [hA, hb, he]
      · have hC : ¬((a = i ∨ a ∈ is) ∧ b ∈ rs ∧ e ∈ ls) := by tauto
        simp [hA, hB, hC]

theorem foldl_upd2_outer (ls : List ℤ) (val2 : ℤ → ℤ → ℚ) :
    ∀ (is : List ℤ) (g : Arr2) (a b : ℤ),
      (is.foldl
        (fun h i => ls.foldl (fun h1 l => upd2 h1 i l (val2 i l)) h) g) a b
        = if a ∈ is ∧ b ∈ ls then val2 a b else g a b := by
  intro is
  induction is with
  | nil => intro g a b; simp
  | cons i is ih =>
    intro g a b
    rw [List.foldl_cons, ih, foldl_upd2_row]
    by_cases hA : a ∈ is ∧ b ∈ ls
    · simp [hA, hA.1, hA.2]
    · by_cases hB : a = i ∧ b ∈ ls
      · obtain ⟨rfl, hb⟩ := hB
        simp [hA, hb]
      · have hC : ¬((a = i ∨ a ∈ is) ∧ b ∈ ls) := by tauto
        simp [hA, hB, hC]

theorem reconstructQr_get (k n s imin imax : ℤ) (q : ℤ → ℚ) (qstride : ℤ)
    (c : Arr4) (qr0 : Arr3) (a b e : ℤ) :
    reconstructQr k n s imin imax q qstride c qr0 a b e
      = if a ∈ rlist imin imax
            ∧ b ∈ rlist (max 0 s) (min (k - 1 + s) (k - 1))
            ∧ e ∈ rlist 0 (n - 1)
        then dot (fun j => c a b e j) (fun t => q ((a - b) * qstride + t)) k qstride
        else qr0 a b e := by
  unfold reconstructQr
  rw [foldl_upd3_outer]

theorem combine_get (k n imin imax : ℤ) (wr : Arr2) (qr : Arr3) (qs0 : Arr2)
    (a b : ℤ) :
    combine k n imin imax wr qr qs0 a b
      = if a ∈ rlist imin imax ∧ b ∈ rlist 0 (n - 1)
        then dot (fun j => wr a j)
               (fun o => qr a ((b + o) / n) ((b + o) % n)) k n
        else qs0 a b := by
  unfold combine
  rw [foldl_upd2_outer]

/-! ### Claim C2 -/

/-- Claim C2, counterexample: the spec scenario expects `rmin=2, rmax=2` at
`i=4` for `N=5, k=3`, but the clamp computed by `weights`
(`rmin = max(0, i-(N-k)-1)`, line 105) gives `rmin = 1` there, so the
conjunction claimed by the scenario is false. -/
theorem c2_counterexample :
    ¬ (rminDef 5 3 0 = 0 ∧ rmaxDef 3 0 = 0
        ∧ rminDef 5 3 4 = 2 ∧ rmaxDef 3 4 = 2) := by
  decide

/-- Claim C2, amended: with `N=5` and `k=3` the shift range computed by
`weights` is `rmin=0, rmax=0` at cell `i=0` (shift list `[0]`), and
`rmin=1, rmax=2` at cell `i=4` (shift list `[1, 2]`, not the single shift
`2` the spec scenario expects). -/
theorem c2_boundary_clamp :
    rminDef 5 3 0 = 0 ∧ rmaxDef 3 0 = 0
      ∧ rminDef 5 3 4 = 1 ∧ rmaxDef 3 4 = 2
      ∧ rlist (rminDef 5 3 0) (rmaxDef 3 0) = [0]
      ∧ rlist (rminDef 5 3 4) (rmaxDef 3 4) = [1, 2] := by
  decide

/-! ### Claim C3 -/

/-- Claim C3, counterexample: for `N=5, k=3`, cell `i=4` and shift `r=1`
(admissible for the clamp of `weights`, since `rminDef 5 3 4 = 1`), the
stencil window `i-r .. i-r+k-1 = 3..5` reaches cell index `5 = N`, which
is outside `[0, N)`. -/
theorem c3_counterexample :
    (1 : ℤ) ≤ 3 ∧ (3 : ℤ) ≤ 5 ∧ (0 : ℤ) ≤ 4 ∧ (4 : ℤ) < 5
      ∧ rminDef 5 3 4 ≤ 1 ∧ (1 : ℤ) ≤ rmaxDef 3 4
      ∧ ¬(4 - 1 + 3 - 1 < (5 : ℤ)) := by
  decide

/-- Claim C3, amended: for every `N ≥ k ≥ 1`, cell `i ∈ [0, N)` and shift
`r` in the clamped range `[rminDef N k i, rmaxDef k i]`, the stencil window
`i-r .. i-r+k-1` stays inside `[0, N]`: no index is negative and no index
exceeds `N`.  (The window can end exactly at `N` — not strictly inside
`[0, N)` — because of the extra `-1` in the lower clamp of line 105.) -/
theorem c3_window_bounds (N k i r : ℤ) (hk : 1 ≤ k) (hkN : k ≤ N)
    (hi0 : 0 ≤ i) (hiN : i < N)
    (hr1 : rminDef N k i ≤ r) (hr2 : r ≤ rmaxDef k i) :
    0 ≤ i - r ∧ i - r + k - 1 ≤ N := by
  unfold rminDef at hr1
  unfold rmaxDef at hr2
  omega

/-- Witness for the amended C3 theorem at `N=5, k=3, i=4, r=1`. -/
theorem c3_window_bounds_witness :
    ((1 : ℤ) ≤ 3 ∧ (3 : ℤ) ≤ 5 ∧ (0 : ℤ) ≤ 4 ∧ (4 : ℤ) < 5
        ∧ rminDef 5 3 4 ≤ 1 ∧ (1 : ℤ) ≤ rmaxDef 3 4)
      ∧ ((0 : ℤ) ≤ 4 - 1 ∧ 4 - 1 + 3 - 1 ≤ (5 : ℤ)) :=
  ⟨by decide,
   c3_window_bounds 5 3 4 1 (by decide) (by decide) (by decide) (by decide)
     (by decide) (by decide)⟩

/-! ### Claim C5 -/

/-- Claim C5 (confirmed): for any cell `i` and any shift `r` in the clamped
range, the unnormalized weight written by the first inner loop of `weights`
equals `w[i,r] / (eps + sigma[i,r])^2`, and the regularizer `eps` (written
`10e-6` in the source) is exactly `1e-5`. -/
theorem c5_unnormalized_alpha (N k i r : ℤ) (sigma w : Arr2) (g : Arr2)
    (h1 : rminDef N k i ≤ r) (h2 : r ≤ rmaxDef k i) :
    eps = 1 / 100000
      ∧ (weightsCellPass1 N k sigma w i g).1 i r
          = w i r / (eps + sigma i r) ^ 2 := by
  refine ⟨by norm_num [eps], ?_⟩
  unfold weightsCellPass1
  rw [foldl_pass1_eq i (fun r => alpha (w i r) (sigma i r))]
  simp only []
  rw [foldl_upd2_row]
  rw [if_pos ⟨rfl, mem_rlist.mpr ⟨h1, h2⟩⟩]
  unfold alpha
  ring

/-- Witness for C5 at `N=5, k=3, i=1, r=0` with constant inputs. -/
theorem c5_unnormalized_alpha_witness :
    (rminDef 5 3 1 ≤ 0 ∧ (0 : ℤ) ≤ rmaxDef 3 1)
      ∧ (eps = 1 / 100000
          ∧ (weightsCellPass1 5 3 (fun _ _ => 2) (fun _ _ => 3) 1
              (fun _ _ => 0)).1 1 0
            = 3 / (eps + 2) ^ 2) :=
  ⟨by decide,
   c5_unnormalized_alpha 5 3 1 0 (fun _ _ => 2) (fun _ _ => 3) (fun _ _ => 0)
     (by decide) (by decide)⟩

/-! ### Claim C10 -/

/-- Claim C10 (confirmed): `dot` reads offset 0 of both `u` and `v`
unconditionally for every length argument `n` (even `n ≤ 0`, so `n ≥ 1` is
a precondition for well-definedness); for `n ≥ 1` it reads exactly the
offsets `0..n-1` of `u` and `0, s, ..., (n-1)s` of `v`; and for `n = 1`
its value is `u[0]*v[0]` for every stride `s`. -/
theorem c10_dot_access (u v : ℤ → ℚ) (n s : ℤ) :
    (0 ∈ (dotTrace u v n s).2.1 ∧ 0 ∈ (dotTrace u v n s).2.2)
      ∧ (1 ≤ n →
          (dotTrace u v n s).2.1 = rlist 0 (n - 1)
            ∧ (dotTrace u v n s).2.2 = (rlist 0 (n - 1)).map (fun j => j * s))
      ∧ (n = 1 → dot u v n s = u 0 * v 0) := by
  obtain ⟨h1, h2⟩ := dotTrace_reads u v n s
  refine ⟨⟨by rw [h1]; exact List.mem_cons_self 0 _,
           by rw [h2]; exact List.mem_cons_self 0 _⟩, ?_, ?_⟩
  · intro hn
    constructor
    · rw [h1, rlist_cons (by omega : (0 : ℤ) ≤ n - 1)]
      norm_num
    · rw [h2, rlist_cons (by omega : (0 : ℤ) ≤ n - 1)]
      norm_num
  · intro hn
    subst hn
    rw [dot_eq]
    simp [rlist]

/-- Witness for C10 at `n = 1`, stride `7`. -/
theorem c10_dot_access_witness :
    ((dotTrace (fun t => (t : ℚ)) (fun t => (t : ℚ) + 1) 1 7).2.1 = rlist 0 0
        ∧ (dotTrace (fun t => (t : ℚ)) (fun t => (t : ℚ) + 1) 1 7).2.2
            = (rlist 0 0).map (fun j => j * 7))
      ∧ dot (fun t => (t : ℚ)) (fun t => (t : ℚ) + 1) 1 7
          = (0 : ℚ) * (0 + 1) :=
  ⟨(c10_dot_access (fun t => (t : ℚ)) (fun t => (t : ℚ) + 1) 1 7).2.1
      (by norm_num),
   (c10_dot_access (fun t => (t : ℚ)) (fun t => (t : ℚ) + 1) 1 7).2.2 rfl⟩

/-! ### Claim C1 -/

/-- Claim C1, counterexample: with `N=1, k=1` and all-zero optimal weights
`w`, every alpha is `0`, the accumulated `sum_alpha` is `0`, and the
normalization divides by zero; the processed nonlinear weights do not sum
to `1` within `1e-12` (in this exact-arithmetic model the sum is `0`), so
the claim fails for these input values of `sigma` and `w`. -/
theorem c1_counterexample :
    ¬ (|((rlist (rminDef 1 1 0) (rmaxDef 1 0)).map
          (fun r => weights 1 1 0 0 (fun _ _ => 0) (fun _ _ => 0)
              (fun _ _ => 0) 0 r)).sum - 1|
        ≤ 1 / 1000000000000) := by
  have hv : weights 1 1 0 0 (fun _ _ => 0) (fun _ _ => 0) (fun _ _ => 0) 0 0
      = 0 := by
    rw [weights_get, if_pos (by decide :
        ((0 : ℤ) ≤ 0 ∧ (0 : ℤ) ≤ 0) ∧ rminDef 1 1 0 ≤ 0 ∧ 0 ≤ rmaxDef 1 0)]
    simp [alpha]
  have hl : rlist (rminDef 1 1 0) (rmaxDef 1 0) = [0] := by decide
  rw [hl, List.map_cons, List.map_nil, List.sum_cons, List.sum_nil, hv]
  norm_num

/-- Claim C1, amended: after `weights` runs on cells `imin..imax`, for
every processed cell `i` the nonlinear weights over the clamped shift
range sum to exactly `1` — provided the admissible smoothness indicators
are nonnegative and the admissible optimal weights are nonnegative with at
least one positive (which makes the accumulated alpha sum nonzero; for
all-zero `w` the normalization divides by zero and the property fails). -/
theorem c1_weights_sum_one (N k imin imax i : ℤ) (sigma w wr0 : Arr2)
    (hi1 : imin ≤ i) (hi2 : i ≤ imax)
    (hσ : ∀ r ∈ rlist (rminDef N k i) (rmaxDef k i), 0 ≤ sigma i r)
    (hw : ∀ r ∈ rlist (rminDef N k i) (rmaxDef k i), 0 ≤ w i r)
    (hpos : ∃ r ∈ rlist (rminDef N k i) (rmaxDef k i), 0 < w i r) :
    ((rlist (rminDef N k i) (rmaxDef k i)).map
        (fun r => weights N k imin imax sigma w wr0 i r)).sum = 1 := by
  have hS := sumAlpha_pos N k sigma w i hσ hw hpos
  have hterm : ∀ r ∈ rlist (rminDef N k i) (rmaxDef k i),
      weights N k imin imax sigma w wr0 i r
        = alpha (w i r) (sigma i r) / sumAlpha N k sigma w i := by
    intro r hr
    rw [weights_get, if_pos ⟨⟨hi1, hi2⟩, mem_rlist.mp hr⟩]
  rw [List.map_congr_left hterm, list_sum_map_div]
  have hdef : ((rlist (rminDef N k i) (rmaxDef k i)).map
      (fun r => alpha (w i r) (sigma i r))).sum = sumAlpha N k sigma w i := rfl
  rw [hdef]
  exact div_self (ne_of_gt hS)

/-- Witness for the amended C1 theorem: `N=5, k=3`, cells `0..4`, cell
`i=2`, constant `sigma = 0` and `w = 1`. -/
theorem c1_weights_sum_one_witness :
    ((0 : ℤ) ≤ 2 ∧ (2 : ℤ) ≤ 4
        ∧ (∀ r ∈ rlist (rminDef 5 3 2) (rmaxDef 3 2),
            (0 : ℚ) ≤ (fun _ _ => (0 : ℚ)) 2 r)
        ∧ (∀ r ∈ rlist (rminDef 5 3 2) (rmaxDef 3 2),
            (0 : ℚ) ≤ (fun _ _ => (1 : ℚ)) 2 r)
        ∧ (∃ r ∈ rlist (rminDef 5 3 2) (rmaxDef 3 2),
            (0 : ℚ) < (fun _ _ => (1 : ℚ)) 2 r))
      ∧ ((rlist (rminDef 5 3 2) (rmaxDef 3 2)).map
          (fun r => weights 5 3 0 4 (fun _ _ => 0) (fun _ _ => 1)
              (fun _ _ => 0) 2 r)).sum = 1 :=
  ⟨by decide,
   c1_weights_sum_one 5 3 0 4 2 (fun _ _ => 0) (fun _ _ => 1) (fun _ _ => 0)
     (by decide) (by decide) (by decide) (by decide) (by decide)⟩

/-! ### Claim C7 -/

/-- Claim C7, counterexample: `weights` is not division-safe for every
input: with `sigma[i,r] = -1e-5` the regularized divisor
`(10e-6 + sigma)^2` inside `alpha` is exactly zero (and the accumulated
alpha sum is zero as well), so the run performs divisions by zero. -/
theorem c7_counterexample :
    ¬ weightsDivSafe 1 1 0 0 (fun _ _ => -(1 / 100000)) (fun _ _ => 1) := by
  intro h
  have h2 := (h 0 (by decide)).1 0 (by decide)
  apply h2
  norm_num [eps]

/-- Claim C7, amended: every division executed by `weights` — the
`alpha` divisor `(10e-6 + sigma[i,r])^2` and the normalization divisor
`sum_alpha` — is nonzero, provided the processed smoothness indicators are
nonnegative and the processed optimal weights are nonnegative with at
least one positive weight per processed cell.  (The `ε` guard alone does
not protect against `sigma = -ε` or against an all-zero alpha sum, so the
unconditional claim fails.) -/
theorem c7_div_safe (N k imin imax : ℤ) (sigma w : Arr2)
    (hσ : ∀ i ∈ rlist imin imax,
        ∀ r ∈ rlist (rminDef N k i) (rmaxDef k i), 0 ≤ sigma i r)
    (hw : ∀ i ∈ rlist imin imax,
        ∀ r ∈ rlist (rminDef N k i) (rmaxDef k i), 0 ≤ w i r)
    (hpos : ∀ i ∈ rlist imin imax,
        ∃ r ∈ rlist (rminDef N k i) (rmaxDef k i), 0 < w i r) :
    weightsDivSafe N k imin imax sigma w := by
  intro i hi
  constructor
  · intro r hr
    have h1 : 0 < eps + sigma i r := by linarith [eps_pos, hσ i hi r hr]
    exact ne_of_gt (mul_pos h1 h1)
  · exact ne_of_gt (sumAlpha_pos N k sigma w i (hσ i hi) (hw i hi) (hpos i hi))

/-- Witness for the amended C7 theorem: `N=5, k=3`, cells `0..4`,
constant `sigma = 0` and `w = 1`. -/
theorem c7_div_safe_witness :
    ((∀ i ∈ rlist 0 4, ∀ r ∈ rlist (rminDef 5 3 i) (rmaxDef 3 i),
          (0 : ℚ) ≤ (fun _ _ => (0 : ℚ)) i r)
        ∧ (∀ i ∈ rlist 0 4, ∀ r ∈ rlist (rminDef 5 3 i) (rmaxDef 3 i),
            (0 : ℚ) ≤ (fun _ _ => (1 : ℚ)) i r)
        ∧ (∀ i ∈ rlist 0 4, ∃ r ∈ rlist (rminDef 5 3 i) (rmaxDef 3 i),
            (0 : ℚ) < (fun _ _ => (1 : ℚ)) i r))
      ∧ weightsDivSafe 5 3 0 4 (fun _ _ => 0) (fun _ _ => 1) :=
  ⟨by decide,
   c7_div_safe 5 3 0 4 (fun _ _ => 0) (fun _ _ => 1)
     (by decide) (by decide) (by decide)⟩

/-! ### Claim C9 -/

/-- Claim C9, counterexample: at a cell with a single admissible shift
(`N=1, k=1`, cell `i=0`), the normalized weight is `alpha/alpha = 1`
whatever `sigma[0,0]` is, so strictly increasing `sigma[0,0]` (from `0` to
`1`, all other entries fixed by construction of `upd2`) does not strictly
decrease `wr[0,0]`. -/
theorem c9_counterexample :
    (fun _ _ => (0 : ℚ)) 0 0 < upd2 (fun _ _ => (0 : ℚ)) 0 0 1 0 0
      ∧ rminDef 1 1 0 ≤ 0 ∧ (0 : ℤ) ≤ rmaxDef 1 0
      ∧ ¬ (weights 1 1 0 0 (upd2 (fun _ _ => 0) 0 0 1) (fun _ _ => 1)
              (fun _ _ => 0) 0 0
            < weights 1 1 0 0 (fun _ _ => 0) (fun _ _ => 1)
                (fun _ _ => 0) 0 0) := by
  have hl : rlist (rminDef 1 1 0) (rmaxDef 1 0) = [0] := by decide
  have hsum : ∀ σ : Arr2, sumAlpha 1 1 σ (fun _ _ => 1) 0
      = alpha 1 (σ 0 0) := by
    intro σ
    unfold sumAlpha
    rw [hl]
    simp
  have hval : ∀ σ : Arr2, alpha 1 (σ 0 0) ≠ 0 →
      weights 1 1 0 0 σ (fun _ _ => 1) (fun _ _ => 0) 0 0 = 1 := by
    intro σ hA
    rw [weights_get, if_pos (by decide :
        ((0 : ℤ) ≤ 0 ∧ (0 : ℤ) ≤ 0) ∧ rminDef 1 1 0 ≤ 0 ∧ 0 ≤ rmaxDef 1 0),
      hsum σ]
    exact div_self hA
  have h1 : weights 1 1 0 0 (upd2 (fun _ _ => 0) 0 0 1) (fun _ _ => 1)
      (fun _ _ => 0) 0 0 = 1 := by
    refine hval _ ?_
    have hs : upd2 (fun _ _ => (0 : ℚ)) 0 0 1 0 0 = 1 := by simp [upd2]
    rw [hs]
    norm_num [alpha, eps]
  have h2 : weights 1 1 0 0 (fun _ _ => 0) (fun _ _ => 1)
      (fun _ _ => 0) 0 0 = 1 := by
    refine hval _ ?_
    norm_num [alpha, eps]
  refine ⟨by simp [upd2], by decide, by decide, ?_⟩
  rw [h1, h2]
  exact lt_irrefl 1

/-- Claim C9, amended: strictly increasing the single entry `sigma[i,r]`
of a processed cell `i` at an admissible shift `r` (all other entries
fixed) strictly decreases the output `wr[i,r]` of `weights`, provided the
cell has more than one admissible shift, its admissible smoothness
indicators are nonnegative, and its admissible optimal weights are
positive.  (At a boundary cell with a single admissible shift the output
is constantly `1`, so the unconditional claim fails.) -/
theorem c9_monotone (N k imin imax i r : ℤ) (sigma sigma' w wr0 : Arr2)
    (hi1 : imin ≤ i) (hi2 : i ≤ imax)
    (hr : r ∈ rlist (rminDef N k i) (rmaxDef k i))
    (hmulti : rminDef N k i < rmaxDef k i)
    (hσ : ∀ r' ∈ rlist (rminDef N k i) (rmaxDef k i), 0 ≤ sigma i r')
    (hw : ∀ r' ∈ rlist (rminDef N k i) (rmaxDef k i), 0 < w i r')
    (hinc : sigma i r < sigma' i r)
    (hfix : ∀ a b : ℤ, ¬(a = i ∧ b = r) → sigma' a b = sigma a b) :
    weights N k imin imax sigma' w wr0 i r
      < weights N k imin imax sigma w wr0 i r := by
  have hrm := mem_rlist.mp hr
  rw [weights_get, weights_get, if_pos ⟨⟨hi1, hi2⟩, hrm⟩,
      if_pos ⟨⟨hi1, hi2⟩, hrm⟩]
  have hσr : 0 ≤ sigma i r := hσ r hr
  have hσr' : 0 ≤ sigma' i r := le_of_lt (lt_of_le_of_lt hσr hinc)
  have hA : 0 < alpha (w i r) (sigma i r) := alpha_pos (hw r hr) hσr
  have hA' : 0 < alpha (w i r) (sigma' i r) := alpha_pos (hw r hr) hσr'
  have hAA : alpha (w i r) (sigma' i r) < alpha (w i r) (sigma i r) :=
    alpha_strict_anti (hw r hr) hσr hinc
  have hsplit : sumAlpha N k sigma w i
      = alpha (w i r) (sigma i r)
        + (((rlist (rminDef N k i) (rmaxDef k i)).erase r).map
            (fun r' => alpha (w i r') (sigma i r'))).sum := by
    unfold sumAlpha
    rw [((List.perm_cons_erase hr).map
          (fun r' => alpha (w i r') (sigma i r'))).sum_eq]
    simp
  have herase : (((rlist (rminDef N k i) (rmaxDef k i)).erase r).map
      (fun r' => alpha (w i r') (sigma' i r')))
        = (((rlist (rminDef N k i) (rmaxDef k i)).erase r).map
            (fun r' => alpha (w i r') (sigma i r'))) := by
    refine List.map_congr_left ?_
    intro r' hr'
    have hne : r' ≠ r :=
      ((List.Nodup.mem_erase_iff (nodup_rlist _ _)).mp hr').1
    rw [hfix i r' (fun hc => hne hc.2)]
  have hsplit' : sumAlpha N k sigma' w i
      = alpha (w i r) (sigma' i r)
        + (((rlist (rminDef N k i) (rmaxDef k i)).erase r).map
            (fun r' => alpha (w i r') (sigma i r'))).sum := by
    unfold sumAlpha
    rw [((List.perm_cons_erase hr).map
          (fun r' => alpha (w i r') (sigma' i r'))).sum_eq]
    simp [herase]
  have hlen : 2 ≤ (rlist (rminDef N k i) (rmaxDef k i)).length := by
    rw [length_rlist]
    omega
  have hT : 0 < (((rlist (rminDef N k i) (rmaxDef k i)).erase r).map
      (fun r' => alpha (w i r') (sigma i r'))).sum := by
    refine List.sum_pos _ ?_ ?_
    · intro x hx
      obtain ⟨r', hr', rfl⟩ := List.mem_map.mp hx
      have hrm' := List.mem_of_mem_erase hr'
      exact alpha_pos (hw r' hrm') (hσ r' hrm')
    · have hl : 0 < (((rlist (rminDef N k i) (rmaxDef k i)).erase r).map
          (fun r' => alpha (w i r') (sigma i r'))).length := by
        rw [List.length_map, List.length_erase_of_mem hr]
        omega
      exact List.ne_nil_of_length_pos hl
  rw [hsplit, hsplit']
  rw [div_lt_div_iff₀ (by linarith) (by linarith)]
  have hmul : (((rlist (rminDef N k i) (rmaxDef k i)).erase r).map
        (fun r' => alpha (w i r') (sigma i r'))).sum
          * alpha (w i r) (sigma' i r)
      < (((rlist (rminDef N k i) (rmaxDef k i)).erase r).map
          (fun r' => alpha (w i r') (sigma i r'))).sum
            * alpha (w i r) (sigma i r) :=
    mul_lt_mul_of_pos_left hAA hT
  nlinarith [hmul]

/-- Witness for the amended C9 theorem: `N=5, k=3`, cell `i=1` (admissible
shifts `0` and `1`), increasing `sigma[1,0]` from `0` to `1`. -/
theorem c9_monotone_witness :
    ((0 : ℤ) ≤ 1 ∧ (1 : ℤ) ≤ 4
        ∧ (0 : ℤ) ∈ rlist (rminDef 5 3 1) (rmaxDef 3 1)
        ∧ rminDef 5 3 1 < rmaxDef 3 1
        ∧ (∀ r' ∈ rlist (rminDef 5 3 1) (rmaxDef 3 1),
            (0 : ℚ) ≤ (fun _ _ => (0 : ℚ)) 1 r')
        ∧ (∀ r' ∈ rlist (rminDef 5 3 1) (rmaxDef 3 1),
            (0 : ℚ) < (fun _ _ => (1 : ℚ)) 1 r')
        ∧ (fun _ _ => (0 : ℚ)) 1 0 < upd2 (fun _ _ => (0 : ℚ)) 1 0 1 1 0
        ∧ (∀ a b : ℤ, ¬(a = 1 ∧ b = 0) →
            upd2 (fun _ _ => (0 : ℚ)) 1 0 1 a b = (fun _ _ => (0 : ℚ)) a b))
      ∧ weights 5 3 0 4 (upd2 (fun _ _ => 0) 1 0 1) (fun _ _ => 1)
            (fun _ _ => 0) 1 0
          < weights 5 3 0 4 (fun _ _ => 0) (fun _ _ => 1)
              (fun _ _ => 0) 1 0 :=
  ⟨⟨by decide, by decide, by decide, by decide, by decide, by decide,
    by decide, fun a b h => by simp [upd2, h]⟩,
   c9_monotone 5 3 0 4 1 0 (fun _ _ => 0) (upd2 (fun _ _ => 0) 1 0 1)
     (fun _ _ => 1) (fun _ _ => 0) (by decide) (by decide) (by decide)
     (by decide) (by decide) (by decide) (by decide)
     (fun a b h => by simp [upd2, h])⟩

/-! ### Claim C4 -/

/-- Claim C4 (confirmed): for every processed cell `i`, shift `r` in
`[max(0,s), min(k-1+s, k-1)]` and point `l` in `[0, n)`, the k-order phase
of `reconstruct` sets `qr[i,r,l]` to the strided dot product of
`c[i,r,l,0..k-1]` against the cell averages at positions
`i-r, ..., i-r+k-1` of `q` (element `m` of `q` at raw offset
`m * qstride`), accumulated in index order `j = 0, 1, ..., k-1` (the order
built into `dot`). -/
theorem c4_reconstruct_dot (k n s imin imax i r l : ℤ) (q : ℤ → ℚ)
    (qstride : ℤ) (c : Arr4) (qr0 : Arr3)
    (hi1 : imin ≤ i) (hi2 : i ≤ imax)
    (hr1 : max 0 s ≤ r) (hr2 : r ≤ min (k - 1 + s) (k - 1))
    (hl1 : 0 ≤ l) (hl2 : l < n) :
    reconstructQr k n s imin imax q qstride c qr0 i r l
        = dot (fun j => c i r l j) (fun t => q ((i - r) * qstride + t))
            k qstride
      ∧ (1 ≤ k →
          reconstructQr k n s imin imax q qstride c qr0 i r l
            = ((rlist 0 (k - 1)).map
                (fun j => c i r l j * q ((i - r + j) * qstride))).sum) := by
  have hget : reconstructQr k n s imin imax q qstride c qr0 i r l
      = dot (fun j => c i r l j) (fun t => q ((i - r) * qstride + t))
          k qstride := by
    rw [reconstructQr_get,
      if_pos ⟨mem_rlist.mpr ⟨hi1, hi2⟩, mem_rlist.mpr ⟨hr1, hr2⟩,
        mem_rlist.mpr ⟨hl1, by omega⟩⟩]
  refine ⟨hget, fun hk => ?_⟩
  rw [hget, dot_eq_sum _ _ _ _ hk]
  refine congrArg List.sum (List.map_congr_left ?_)
  intro j _
  have harg : (i - r) * qstride + j * qstride = (i - r + j) * qstride := by
    ring
  rw [harg]

/-- Witness for C4: `k=2, n=1, s=0`, cell `i=0`, shift `r=0`, point `l=0`,
`q` the identity buffer with stride 1 and all-one coefficients. -/
theorem c4_reconstruct_dot_witness :
    ((0 : ℤ) ≤ 0 ∧ (0 : ℤ) ≤ 0 ∧ max 0 0 ≤ (0 : ℤ)
        ∧ (0 : ℤ) ≤ min (2 - 1 + 0) (2 - 1) ∧ (0 : ℤ) ≤ 0 ∧ (0 : ℤ) < 1
        ∧ (1 : ℤ) ≤ 2)
      ∧ reconstructQr 2 1 0 0 0 (fun t => (t : ℚ)) 1 (fun _ _ _ _ => 1)
            (fun _ _ _ => 0) 0 0 0
          = ((rlist 0 (2 - 1)).map
              (fun j => (1 : ℚ) * ((0 - 0 + j : ℤ) * 1 : ℤ))).sum :=
  ⟨by decide,
   (c4_reconstruct_dot 2 1 0 0 0 0 0 0 (fun t => (t : ℚ)) 1
      (fun _ _ _ _ => 1) (fun _ _ _ => 0) (by decide) (by decide) (by decide)
      (by decide) (by decide) (by decide)).2 (by decide)⟩

/-! ### Claim C6 -/

/-- Claim C6, counterexample: the combiner of `reconstruct` does read
`wr[i,r]` for shifts outside the admissible range of boundary cell `i=0`
(`rmaxDef 3 0 = 0 < 1`): with `N=5, k=3, n=1` and all-one `qr`, changing
only the out-of-range entry `wr[0,1]` (via `upd2`) changes the combined
output `qs[0,0]`. -/
theorem c6_counterexample :
    rmaxDef 3 0 < 1
      ∧ combine 3 1 0 0 (fun _ _ => 0) (fun _ _ _ => 1) (fun _ _ => 0) 0 0
          ≠ combine 3 1 0 0 (upd2 (fun _ _ => 0) 0 1 1) (fun _ _ _ => 1)
              (fun _ _ => 0) 0 0 := by
  refine ⟨by decide, ?_⟩
  have hmem : (0 : ℤ) ∈ rlist 0 0 ∧ (0 : ℤ) ∈ rlist 0 (1 - 1) := by decide
  rw [combine_get, combine_get, if_pos hmem, if_pos hmem, dot_eq, dot_eq]
  have hl : rlist 1 (3 - 1) = [1, 2] := by decide
  rw [hl]
  norm_num [upd2]

/-- Claim C6, amended: the combiner of `reconstruct` reads the whole row
`wr[i, 0..k-1]` (no clamp is reapplied), so its output is independent of
the out-of-range weight entries only when the `qr` entries of the
out-of-range shifts are zero: two runs whose `wr` agree on the admissible
ranges produce identical `qs` provided `qr[i,r,l] = 0` for every shift `r`
outside `[rminDef N k i, rmaxDef k i]`. -/
theorem c6_combiner_independence (N k n imin imax : ℤ) (wrA wrB : Arr2)
    (qr : Arr3) (qs0 : Arr2)
    (hAgree : ∀ i r' : ℤ, rminDef N k i ≤ r' → r' ≤ rmaxDef k i →
        wrA i r' = wrB i r')
    (hZero : ∀ i r' l : ℤ, (r' < rminDef N k i ∨ rmaxDef k i < r') →
        qr i r' l = 0) :
    combine k n imin imax wrA qr qs0 = combine k n imin imax wrB qr qs0 := by
  funext a b
  rw [combine_get, combine_get]
  by_cases h : a ∈ rlist imin imax ∧ b ∈ rlist 0 (n - 1)
  · rw [if_pos h, if_pos h]
    refine dot_congr _ _ _ _ k n ?_
    intro t _
    have hb := mem_rlist.mp h.2
    have hn : 0 < n := by omega
    have hdiv : (b + t * n) / n = t := by
      rw [Int.add_mul_ediv_right _ _ (by omega : n ≠ 0),
        Int.ediv_eq_zero_of_lt hb.1 (by omega)]
      omega
    have hmod : (b + t * n) % n = b := by
      rw [Int.add_mul_emod_self, Int.emod_eq_of_lt hb.1 (by omega)]
    rw [hdiv, hmod]
    by_cases hrange : rminDef N k a ≤ t ∧ t ≤ rmaxDef k a
    · rw [hAgree a t hrange.1 hrange.2]
    · rw [hZero a t b (by omega), mul_zero, mul_zero]
  · rw [if_neg h, if_neg h]

/-- Witness for the amended C6 theorem: `N=5, k=3, n=1`, all-zero `qr`,
`wrB` differing from the all-zero `wrA` only at the out-of-range entry
`(0, 2)`. -/
theorem c6_combiner_independence_witness :
    ((∀ i r' : ℤ, rminDef 5 3 i ≤ r' → r' ≤ rmaxDef 3 i →
          (fun _ _ => (0 : ℚ)) i r' = upd2 (fun _ _ => (0 : ℚ)) 0 2 1 i r')
        ∧ (∀ i r' l : ℤ, (r' < rminDef 5 3 i ∨ rmaxDef 3 i < r') →
            (fun _ _ _ => (0 : ℚ)) i r' l = 0))
      ∧ combine 3 1 0 0 (fun _ _ => 0) (fun _ _ _ => 0) (fun _ _ => 0)
          = combine 3 1 0 0 (upd2 (fun _ _ => 0) 0 2 1) (fun _ _ _ => 0)
              (fun _ _ => 0) := by
  have hAgree : ∀ i r' : ℤ, rminDef 5 3 i ≤ r' → r' ≤ rmaxDef 3 i →
      (fun _ _ => (0 : ℚ)) i r' = upd2 (fun _ _ => (0 : ℚ)) 0 2 1 i r' := by
    intro i r' h1 h2
    have hne : ¬(i = 0 ∧ r' = 2) := by
      rintro ⟨rfl, rfl⟩
      simp [rmaxDef] at h2
    simp [upd2, hne]
  exact ⟨⟨hAgree, fun _ _ _ _ => rfl⟩,
    c6_combiner_independence 5 3 1 0 0 _ _ _ _ hAgree (fun _ _ _ _ => rfl)⟩

/-! ### Claim C8 -/

/-- Claim C8, counterexample: a `reconstruct` call whose `q` buffer fails
the contiguity/alignment check (`qOk = false`, all other arrays fine)
still runs both phases and returns their results — the C code never
inspects the flags of `q` (nor of `qs`), so not every input array is
checked. -/
theorem c8_counterexample :
    reconstructCall false true true true true 3 1 0 0 0 (fun _ => 0) 1
        (fun _ _ _ _ => 0) (fun _ _ => 0) (fun _ _ _ => 0) (fun _ _ => 0)
      = Except.ok (reconstructRun 3 1 0 0 0 (fun _ => 0) 1
          (fun _ _ _ _ => 0) (fun _ _ => 0) (fun _ _ _ => 0)
          (fun _ _ => 0)) := rfl

/-- Claim C8, amended: `weights` checks all three of its arrays
(`sigma`, `w`, `wr`) and returns a `TypeError` before computing anything
when any check fails; `reconstruct` does the same for `c`, `wr` and `qr`,
but does not check `q` or `qs`: a call with those three flags set runs to
completion whatever the flags of `q` and `qs` are. -/
theorem c8_layout_checks (N k imin imax : ℤ) (sigma w wr : Arr2)
    (n s : ℤ) (q : ℤ → ℚ) (qstride : ℤ) (c : Arr4) (wr2 : Arr2)
    (qr : Arr3) (qs : Arr2) :
    (∀ sigmaOk wOk wrOk : Bool,
        (sigmaOk = false ∨ wOk = false ∨ wrOk = false) →
        ∃ e, weightsCall sigmaOk wOk wrOk N k imin imax sigma w wr
          = Except.error e)
      ∧ (∀ qOk cOk wrOk qrOk qsOk : Bool,
          (cOk = false ∨ wrOk = false ∨ qrOk = false) →
          ∃ e, reconstructCall qOk cOk wrOk qrOk qsOk k n s imin imax
              q qstride c wr2 qr qs
            = Except.error e)
      ∧ (∀ qOk qsOk : Bool,
          reconstructCall qOk true true true qsOk k n s imin imax
              q qstride c wr2 qr qs
            = Except.ok (reconstructRun k n s imin imax q qstride c wr2
                qr qs)) := by
  refine ⟨?_, ?_, ?_⟩
  · intro sigmaOk wOk wrOk h
    cases sigmaOk
    · exact ⟨_, rfl⟩
    · cases wOk
      · exact ⟨_, rfl⟩
      · cases wrOk
        · exact ⟨_, rfl⟩
        · simp at h
  · intro qOk cOk wrOk qrOk qsOk h
    cases cOk
    · exact ⟨_, rfl⟩
    · cases wrOk
      · exact ⟨_, rfl⟩
      · cases qrOk
        · exact ⟨_, rfl⟩
        · simp at h
  · intro qOk qsOk
    rfl

/-- Witness for the amended C8 theorem: a `weights` call with
non-contiguous `sigma` errors out; a `reconstruct` call with `c`, `wr`,
`qr` contiguous but `q` and `qs` non-contiguous returns ok. -/
theorem c8_layout_checks_witness :
    (∃ e, weightsCall false true true 1 1 0 0 (fun _ _ => 0) (fun _ _ => 0)
        (fun _ _ => 0) = Except.error e)
      ∧ reconstructCall false true true true false 1 1 0 0 0 (fun _ => 0) 1
          (fun _ _ _ _ => 0) (fun _ _ => 0) (fun _ _ _ => 0) (fun _ _ => 0)
        = Except.ok (reconstructRun 1 1 0 0 0 (fun _ => 0) 1
            (fun _ _ _ _ => 0) (fun _ _ => 0) (fun _ _ _ => 0)
            (fun _ _ => 0)) :=
  ⟨(c8_layout_checks 1 1 0 0 (fun _ _ => 0) (fun _ _ => 0) (fun _ _ => 0)
      1 0 (fun _ => 0) 1 (fun _ _ _ _ => 0) (fun _ _ => 0) (fun _ _ _ => 0)
      (fun _ _ => 0)).1 false true true (Or.inl rfl),
   (c8_layout_checks 1 1 0 0 (fun _ _ => 0) (fun _ _ => 0) (fun _ _ => 0)
      1 0 (fun _ => 0) 1 (fun _ _ _ _ => 0) (fun _ _ => 0) (fun _ _ _ => 0)
      (fun _ _ => 0)).2.2 false false⟩

end CWeno
